import Mathlib

/-!
# Verification of the NYRA hybrid knowledge-retrieval engine

Shallow embedding of `mcp-ecosystem/knowledge-base/search-engine.py`:
the `KnowledgeItem` data model with its `__post_init__` defaulting, the
`VectorSearchEngine.search` pipeline (`_semantic_search`, `_fulltext_search`,
merge/deduplication, score sort, truncation), `_generate_highlight`, the
SQLite write path of `add_items`, and the `UniversalSearchAPI.search_knowledge_base`
wrapper.

Modelling conventions:
- Python floats (scores, distances, FTS ranks) are modelled as exact rationals.
- Timestamps (`datetime.now(timezone.utc)`) are modelled as integers supplied by
  a monotone external clock; each object construction consumes one clock tick.
- The external stores (ChromaDB, SQLite FTS) are modelled as oracles: functions
  from the query and the where-clause arguments that the engine actually passes
  to the rows the store returns, wrapped in `Except` to model raised exceptions.
- Strings processed character-wise by the highlighter are `List Char`.
-/

namespace Nyra

/-- The `ContentType` enumeration of the source (`class ContentType(Enum)`). -/
inductive ContentType where
  | code
  | documentation
  | config
  | secret_metadata
  | repository
  | issue
  | commit
  | file
  | note
deriving DecidableEq, Repr

/-- The string value of each enum member (`ContentType.value`). -/
def ContentType.value : ContentType → String
  | .code => "code"
  | .documentation => "documentation"
  | .config => "config"
  | .secret_metadata => "secret_metadata"
  | .repository => "repository"
  | .issue => "issue"
  | .commit => "commit"
  | .file => "file"
  | .note => "note"

/-- Conversion `ContentType(s)` for a string `s`: `some` member on a valid
value, `none` models the `ValueError` raised on anything else. -/
def contentTypeOfString (s : String) : Option ContentType :=
  if s = "code" then some .code
  else if s = "documentation" then some .documentation
  else if s = "config" then some .config
  else if s = "secret_metadata" then some .secret_metadata
  else if s = "repository" then some .repository
  else if s = "issue" then some .issue
  else if s = "commit" then some .commit
  else if s = "file" then some .file
  else if s = "note" then some .note
  else none

/-- The `KnowledgeItem` dataclass as constructed, before `__post_init__` runs:
`created_at`, `updated_at` and `tags` default to `None` (here `none`). -/
structure KnowledgeItemInit where
  id : String
  title : String
  content : List Char
  content_type : ContentType
  source : String
  metadata : List (String × String)
  embedding : Option (List ℚ) := none
  created_at : Option Int := none
  updated_at : Option Int := none
  tags : Option (List String) := none
deriving DecidableEq

/-- A `KnowledgeItem` after `__post_init__`: the three defaultable fields are
filled in. -/
structure KnowledgeItem where
  id : String
  title : String
  content : List Char
  content_type : ContentType
  source : String
  metadata : List (String × String)
  embedding : Option (List ℚ)
  created_at : Int
  updated_at : Int
  tags : List String
deriving DecidableEq

/-- Python `KnowledgeItem.__post_init__`: `created_at` defaults to the current time
`now`, `updated_at` defaults to (the possibly just-defaulted) `created_at`,
and `tags` defaults to the empty list. -/
def postInit (raw : KnowledgeItemInit) (now : Int) : KnowledgeItem :=
  let created := raw.created_at.getD now
  { id := raw.id
    title := raw.title
    content := raw.content
    content_type := raw.content_type
    source := raw.source
    metadata := raw.metadata
    embedding := raw.embedding
    created_at := created
    updated_at := raw.updated_at.getD created
    tags := raw.tags.getD [] }

/-! ## `_generate_highlight` -/

/-- Python `s.lower()` character-wise. -/
def strLower (s : List Char) : List Char := s.map Char.toLower

/-- Accumulator for `str.split()`: splits on whitespace runs, drops empty
pieces. -/
def splitWsAux : List Char → List Char → List (List Char)
  | [], acc => if acc.isEmpty then [] else [acc.reverse]
  | c :: rest, acc =>
    if c.isWhitespace then
      if acc.isEmpty then splitWsAux rest [] else acc.reverse :: splitWsAux rest []
    else splitWsAux rest (c :: acc)

/-- Python `str.split()` with no argument. -/
def splitWs (s : List Char) : List (List Char) := splitWsAux s []

/-- Python `haystack.find(needle)`: index of the first occurrence, `none` for
`-1`. -/
def findSub (w : List Char) : List Char → Option Nat
  | [] => if w.isEmpty then some 0 else none
  | c :: t => if w.isPrefixOf (c :: t) then some 0 else (findSub w t).map (· + 1)

/-- The `best_pos` loop of `_generate_highlight`: earliest occurrence of any
query word in the lowered content (`inf`, i.e. `none`, when no word occurs). -/
def bestPos (words : List (List Char)) (contentLower : List Char) : Option Nat :=
  (words.filterMap (fun w => findSub w contentLower)).min?

/-- The `"..."` marker. -/
def ellipsis : List Char := ['.', '.', '.']

/-- The slice `content[start:end]` with `start = max(0, p - 100)` and
`end = min(len(content), p + 200)` (Nat subtraction models the `max(0, ...)`). -/
def windowCore (content : List Char) (p : Nat) : List Char :=
  (content.drop (p - 100)).take (min content.length (p + 200) - (p - 100))

/-- The snippet with ellipsis markers added at truncation boundaries. -/
def windowSnippet (content : List Char) (p : Nat) : List Char :=
  (if 0 < p - 100 then ellipsis ++ windowCore content p else windowCore content p) ++
  (if min content.length (p + 200) < content.length then ellipsis else [])

/-- One `re.sub(re.escape(word), f"**{word.upper()}**", snippet, re.IGNORECASE)`
pass, fuelled by the snippet length (each step consumes at least one character,
since words produced by `split()` are nonempty). -/
def markWordAux (w : List Char) : Nat → List Char → List Char
  | 0, s => s
  | _ + 1, [] => []
  | fuel + 1, c :: t =>
    if (strLower w).isPrefixOf (strLower (c :: t)) && !w.isEmpty then
      '*' :: '*' :: (w.map Char.toUpper ++ '*' :: '*' :: markWordAux w fuel ((c :: t).drop w.length))
    else
      c :: markWordAux w fuel t

/-- Case-insensitive global replacement of `w` by `**W**` in `s`. -/
def markWord (w s : List Char) : List Char := markWordAux w s.length s

/-- The final loop of `_generate_highlight`: mark every query word in turn. -/
def applyMarks (words : List (List Char)) (s : List Char) : List Char :=
  words.foldl (fun acc w => markWord w acc) s

/-- Model of `VectorSearchEngine._generate_highlight`. -/
def generateHighlight (content query : List Char) : List Char :=
  match bestPos (splitWs (strLower query)) (strLower content) with
  | none => if 200 < content.length then content.take 200 ++ ellipsis else content
  | some p => applyMarks (splitWs (strLower query)) (windowSnippet content p)

/-! ## The search pipeline -/

/-- The `SearchResult` dataclass; the `context` dict is modelled by its two
entries: `search_type` (`"semantic"` or `"fulltext"`) and the raw sub-score
(the ChromaDB `distance`, respectively the FTS `rank`). -/
structure SearchResult where
  item : KnowledgeItem
  score : ℚ
  highlight : List Char
  search_type : String
  raw : ℚ
deriving DecidableEq

/-- One row of a ChromaDB query reply (the `ids`/`metadatas`/`documents`/
`distances` arrays, zipped). The comma-joined `tags` metadata string is
modelled as the already-split list. -/
structure SemRow where
  id : String
  title : String
  content : List Char
  content_type : ContentType
  source : String
  tags : List String
  distance : ℚ
deriving DecidableEq

/-- One row of the SQLite FTS query reply (already filtered, ranked and
limited by the store). `metadata` models the JSON-decoded `metadata` column. -/
structure FtsRow where
  id : String
  title : String
  content : List Char
  content_type : ContentType
  source : String
  tags : List String
  metadata : List (String × String)
  rank : ℚ
deriving DecidableEq

/-- The two external stores, as query oracles. Each receives exactly what the
engine passes: the query text, the number of rows requested (`n_results`,
respectively the SQL `LIMIT`), and the optional `content_type` / `source`
restrictions of the where clause; it answers with the store's rows, or with an
error modelling a raised exception. -/
structure SearchEngine where
  semIndex : List Char → Nat → Option (List String) → Option (List String) →
    Except String (List SemRow)
  ftsIndex : List Char → Nat → Option (List String) → Option (List String) →
    Except String (List FtsRow)

/-- Python truthiness of the optional filter lists (`if content_types:`):
`None` and the empty list both mean "no restriction". -/
def optNonEmpty {α β : Type} (f : α → β) : Option (List α) → Option (List β)
  | some (a :: as) => some ((a :: as).map f)
  | _ => none

/-- The list `f 0 a₀ :: f 1 a₁ :: ...`: item construction order within one pass, used to
hand each `__post_init__` its own clock reading. -/
def mapWithIndex {α β : Type} (f : Nat → α → β) : Nat → List α → List β
  | _, [] => []
  | i, a :: as => f i a :: mapWithIndex f (i + 1) as

/-- The `SearchResult` built from one semantic row: the reconstructed
`KnowledgeItem` (fresh `created_at`/`updated_at` from `__post_init__`, empty
`metadata`), the distance converted by `score = max(0, 1 - distance)`, and a
`"semantic"` context. -/
def semRowResult (query : List Char) (now : Int) (r : SemRow) : SearchResult :=
  { item := postInit
      { id := r.id, title := r.title, content := r.content,
        content_type := r.content_type, source := r.source,
        metadata := [], tags := some r.tags } now
    score := max 0 (1 - r.distance)
    highlight := generateHighlight r.content query
    search_type := "semantic"
    raw := r.distance }

/-- The `SearchResult` built from one full-text row: the negative FTS rank is
converted by `score = max(0, -rank / 10.0)`, with a `"fulltext"` context. -/
def ftsRowResult (query : List Char) (now : Int) (r : FtsRow) : SearchResult :=
  { item := postInit
      { id := r.id, title := r.title, content := r.content,
        content_type := r.content_type, source := r.source,
        metadata := r.metadata, tags := some r.tags } now
    score := max 0 (-r.rank / 10)
    highlight := generateHighlight r.content query
    search_type := "fulltext"
    raw := r.rank }

/-- Model of `VectorSearchEngine._semantic_search`. `clock i` is the wall-clock reading
of the `i`-th `__post_init__` of the pass; a raised exception is caught and
turned into an empty list. The `tags` parameter is accepted but — as in the
source — never used. -/
def semanticSearch (eng : SearchEngine) (query : List Char) (limit : Nat)
    (content_types : Option (List ContentType)) (sources : Option (List String))
    (tags : Option (List String)) (clock : Nat → Int) : List SearchResult :=
  match eng.semIndex query limit (optNonEmpty ContentType.value content_types)
      (optNonEmpty (fun s => s) sources) with
  | .error _ => []
  | .ok rows => mapWithIndex (fun i r => semRowResult query (clock i) r) 0 rows

/-- Model of `VectorSearchEngine._fulltext_search`; same conventions as
`semanticSearch`, with the filters forwarded into the SQL where clause. -/
def fulltextSearch (eng : SearchEngine) (query : List Char) (limit : Nat)
    (content_types : Option (List ContentType)) (sources : Option (List String))
    (tags : Option (List String)) (clock : Nat → Int) : List SearchResult :=
  match eng.ftsIndex query limit (optNonEmpty ContentType.value content_types)
      (optNonEmpty (fun s => s) sources) with
  | .error _ => []
  | .ok rows => mapWithIndex (fun i r => ftsRowResult query (clock i) r) 0 rows

/-- The merge/deduplication loop of `search`: keep the first result for each
`item.id`, tracking `seen_ids`. -/
def dedupById : List SearchResult → List String → List SearchResult
  | [], _ => []
  | r :: rs, seen =>
    if r.item.id ∈ seen then dedupById rs seen
    else r :: dedupById rs (r.item.id :: seen)

/-- One insertion step of a stable descending sort by `score`: the element
being inserted was constructed later, so it goes after existing elements of
equal score. -/
def insertDesc (r : SearchResult) : List SearchResult → List SearchResult
  | [] => [r]
  | x :: xs => if x.score < r.score then r :: x :: xs else x :: insertDesc r xs

/-- Python `results.sort(key=lambda x: x.score, reverse=True)`: a stable descending
sort on the fused score (and on nothing else). -/
def sortByScoreDesc (l : List SearchResult) : List SearchResult :=
  l.foldl (fun acc r => insertDesc r acc) []

/-- Model of `VectorSearchEngine.search`: query both stores with `2 × limit`
candidates, concatenate semantic-then-fulltext, deduplicate by id (first
occurrence wins), sort by score descending, truncate to `limit`. The `i`-th
item constructed in the pass (all semantic rows first, then all full-text
rows) observes wall-clock time `clock i`. -/
def search (eng : SearchEngine) (query : List Char) (limit : Nat)
    (content_types : Option (List ContentType)) (sources : Option (List String))
    (tags : Option (List String)) (clock : Nat → Int) : List SearchResult :=
  let semantic := semanticSearch eng query (limit * 2) content_types sources tags clock
  let fts := fulltextSearch eng query (limit * 2) content_types sources tags
    (fun i => clock (semantic.length + i))
  (sortByScoreDesc (dedupById (semantic ++ fts) [])).take limit

/-! ## `UniversalSearchAPI.search_knowledge_base` -/

/-- The REST reply, restricted to the fields that carry search content. -/
structure ApiResponse where
  status : String
  total_results : Nat
  results : List SearchResult
deriving DecidableEq

/-- Model of `UniversalSearchAPI.search_knowledge_base`: each content-type string is
converted with `ContentType(ct)`; a `ValueError` is caught, the offending
string logged and skipped; `None` is passed on when no valid type remains.
The model's `search` is total — matching the source, where both sub-searches
catch their own exceptions — so the reply status is always `"success"`. -/
def searchKnowledgeBase (eng : SearchEngine) (query : List Char) (limit : Nat)
    (content_types : Option (List String)) (sources : Option (List String))
    (tags : Option (List String)) (clock : Nat → Int) : ApiResponse :=
  let enums := (content_types.getD []).filterMap contentTypeOfString
  let results := search eng query limit
    (if enums.isEmpty then none else some enums) sources tags clock
  { status := "success", total_results := results.length, results := results }

/-! ## The SQLite write path of `add_items` -/

/-- One row of the `knowledge_fts` FTS5 virtual table. FTS5 declares no UNIQUE
constraint on `id`, so `INSERT OR REPLACE` never sees a conflict and behaves
as a plain insert: the table is a row list that only grows. -/
structure FtsTableRow where
  id : String
  title : String
  content : List Char
  content_type : String
  source : String
  tags : List String
  metadata : List (String × String)
deriving DecidableEq

/-- One row of the `knowledge_metadata` table (`id TEXT PRIMARY KEY`). -/
structure MetaRow where
  id : String
  title : String
  content_type : String
  source : String
  created_at : Int
  updated_at : Int
  metadata : List (String × String)
  tags : List String
deriving DecidableEq

/-- The SQLite side of the store (the ChromaDB collection is an external
collaborator and is not modelled). -/
structure DB where
  fts : List FtsTableRow
  meta : List MetaRow
deriving DecidableEq

/-- The `knowledge_fts` row written for an item. -/
def ftsRowOf (item : KnowledgeItem) : FtsTableRow :=
  { id := item.id, title := item.title, content := item.content,
    content_type := item.content_type.value, source := item.source,
    tags := item.tags, metadata := item.metadata }

/-- The `knowledge_metadata` row written for an item. -/
def metaRowOf (item : KnowledgeItem) : MetaRow :=
  { id := item.id, title := item.title, content_type := item.content_type.value,
    source := item.source, created_at := item.created_at,
    updated_at := item.updated_at, metadata := item.metadata, tags := item.tags }

/-- SQL `INSERT OR REPLACE` into a table keyed by `id`: any conflicting row is
deleted and the new row inserted. -/
def upsertMeta (row : MetaRow) (table : List MetaRow) : List MetaRow :=
  table.filter (fun r => r.id != row.id) ++ [row]

/-- The SQLite write loop of `VectorSearchEngine.add_items`: per item, one
insert into `knowledge_fts` and one insert-or-replace into
`knowledge_metadata`. -/
def addItems (db : DB) (items : List KnowledgeItem) : DB :=
  items.foldl (fun st item =>
    { fts := st.fts ++ [ftsRowOf item],
      meta := upsertMeta (metaRowOf item) st.meta }) db

/-! ## Concrete fixtures used by witnesses and counterexamples -/

/-- A semantic row at distance `4/5` carrying the single tag `"x"`. -/
def rowA : SemRow :=
  { id := "x", title := "t", content := ['a'], content_type := .note,
    source := "s", tags := ["x"], distance := 4/5 }

/-- An engine whose vector store always answers `[rowA]` (for any query,
including the empty one) and whose FTS store answers no rows. -/
def engSemOnly : SearchEngine :=
  { semIndex := fun _ _ _ _ => .ok [rowA]
    ftsIndex := fun _ _ _ _ => .ok [] }

/-- A full-text row whose raw FTS rank is `-20`. -/
def ftsRowHot : FtsRow :=
  { id := "y", title := "t", content := ['a'], content_type := .note,
    source := "s", tags := [], metadata := [], rank := -20 }

/-- An engine whose FTS store answers one row of rank `-20`. -/
def engFtsHot : SearchEngine :=
  { semIndex := fun _ _ _ _ => .ok []
    ftsIndex := fun _ _ _ _ => .ok [ftsRowHot] }

/-- The same item id reported by both stores: semantically at distance `4/5`
(score `1/5`), lexically at rank `-5` (score `1/2`). -/
def ftsRowDup : FtsRow :=
  { id := "x", title := "t", content := ['a'], content_type := .note,
    source := "s", tags := ["x"], metadata := [], rank := -5 }

/-- Engine for the duplicated id. -/
def engDup : SearchEngine :=
  { semIndex := fun _ _ _ _ => .ok [rowA]
    ftsIndex := fun _ _ _ _ => .ok [ftsRowDup] }

/-- Two full-text rows with the same rank `-5` (equal fused scores). -/
def engTie : SearchEngine :=
  { semIndex := fun _ _ _ _ => .ok []
    ftsIndex := fun _ _ _ _ => .ok
      [{ id := "a", title := "t", content := ['a'], content_type := .note,
         source := "s", tags := [], metadata := [], rank := -5 },
       { id := "b", title := "t", content := ['a'], content_type := .note,
         source := "s", tags := [], metadata := [], rank := -5 }] }

/-- An engine whose both stores raise (both indexes unreachable). -/
def engDown : SearchEngine :=
  { semIndex := fun _ _ _ _ => .error "down"
    ftsIndex := fun _ _ _ _ => .error "down" }

/-- A healthy engine whose both stores simply hold no matching rows. -/
def engEmpty : SearchEngine :=
  { semIndex := fun _ _ _ _ => .ok []
    ftsIndex := fun _ _ _ _ => .ok [] }

/-- A raw collector record, as handed to the `KnowledgeItem` constructor
(`created_at`/`updated_at`/`tags` left to default). -/
def rawRecord : KnowledgeItemInit :=
  { id := "a1", title := "t", content := ['c'], content_type := .note,
    source := "s", metadata := [] }

/-! ## Theorems -/

/-- A true `isPrefixOf` gives a concrete take/length description. -/
theorem isPrefixOf_take {l₁ l₂ : List Char} (h : l₁.isPrefixOf l₂ = true) :
    l₂.take l₁.length = l₁ ∧ l₁.length ≤ l₂.length := by
  induction l₁ generalizing l₂ with
  | nil => simp
  | cons a as ih =>
    cases l₂ with
    | nil => simp [List.isPrefixOf] at h
    | cons b bs =>
      simp only [List.isPrefixOf, Bool.and_eq_true, beq_iff_eq] at h
      obtain ⟨rfl, h2⟩ := h
      have := ih h2
      simp [List.take, this.1, Nat.succ_le_succ this.2]

/-- Equation `findSub w s = some p` means `w` occurs in `s` at offset `p`. -/
theorem findSub_spec {w s : List Char} {p : Nat} (h : findSub w s = some p) :
    (s.drop p).take w.length = w ∧ p + w.length ≤ s.length := by
  induction s generalizing p with
  | nil =>
    simp only [findSub] at h
    by_cases hw : w.isEmpty
    · simp only [hw, if_true, Option.some.injEq] at h
      subst h
      simp [List.isEmpty_iff.mp hw]
    · simp [hw] at h
  | cons c t ih =>
    simp only [findSub] at h
    by_cases hp : w.isPrefixOf (c :: t) = true
    · simp only [hp, if_true, Option.some.injEq] at h
      subst h
      have := isPrefixOf_take hp
      simpa using this
    · simp only [hp, if_false] at h
      cases hft : findSub w t with
      | none => rw [hft] at h; simp at h
      | some q =>
        rw [hft] at h
        simp at h
        subst h
        have hq := ih hft
        constructor
        · simpa [List.drop_succ_cons] using hq.1
        · have h2 := hq.2
          simp only [List.length_cons]
          omega

/-- C6 (amended) -- When some query term occurs case-insensitively in the
content, the extracted window is centred on the earliest occurrence: some
query word matches exactly at that position, the pre-marking snippet (window
plus ellipsis markers) never exceeds 306 characters, the window contains the
matched term (case-insensitively) whenever the term is at most 200 characters
long, and the returned highlight is the result of running the term-marking
pass over that snippet (which may lengthen it past the window bound); when no
term occurs, a 200-character prefix snippet is returned, with a trailing
ellipsis exactly when the content was truncated. -/
theorem generateHighlight_spec (content query : List Char) :
    (∀ p, bestPos (splitWs (strLower query)) (strLower content) = some p →
      (∃ w, w ∈ splitWs (strLower query) ∧ findSub w (strLower content) = some p ∧
        (w.length ≤ 200 →
          strLower (((windowCore content p).drop (p - (p - 100))).take w.length) = w)) ∧
      (windowSnippet content p).length ≤ 306 ∧
      generateHighlight content query =
        applyMarks (splitWs (strLower query)) (windowSnippet content p)) ∧
    (bestPos (splitWs (strLower query)) (strLower content) = none →
      generateHighlight content query =
        if 200 < content.length then content.take 200 ++ ellipsis else content) := by
  constructor
  · intro p hp
    refine ⟨?_, ?_, ?_⟩
    · have hmem : p ∈ (splitWs (strLower query)).filterMap
          (fun w => findSub w (strLower content)) :=
        List.min?_mem (fun a b => min_choice a b) hp
      rw [List.mem_filterMap] at hmem
      obtain ⟨w, hw, hfind⟩ := hmem
      refine ⟨w, hw, hfind, ?_⟩
      intro hwlen
      have hspec := findSub_spec hfind
      have hlen : (strLower content).length = content.length := by
        simp [strLower]
      rw [windowCore, List.drop_take, List.drop_drop]
      have h1 : p - 100 + (p - (p - 100)) = p := by omega
      rw [h1, List.take_take]
      have h2 : w.length ⊓ (min content.length (p + 200) - (p - 100) - (p - (p - 100))) =
          w.length := by
        have := hspec.2
        omega
      rw [h2, strLower, List.map_take, List.map_drop]
      exact hspec.1
    · rw [windowSnippet]
      have hc : (windowCore content p).length ≤ 300 := by
        rw [windowCore]
        simp only [List.length_take, List.length_drop]
        omega
      by_cases h1 : 0 < p - 100 <;>
        by_cases h2 : min content.length (p + 200) < content.length <;>
          simp only [h1, h2, if_true, if_false, ite_true, ite_false,
            List.length_append, ellipsis, List.length_cons, List.length_nil] <;>
          omega
    · simp [generateHighlight, hp]
  · intro hn
    simp [generateHighlight, hn]

/-- Witness for C6 at the content `"hello world"` and query `"world"`: the
earliest occurrence is at position 6, the snippet stays within the window
bound, and the highlight is the marking pass applied to the snippet. -/
theorem generateHighlight_spec_witness :
    (windowSnippet ['h','e','l','l','o',' ','w','o','r','l','d'] 6).length ≤ 306 ∧
    generateHighlight ['h','e','l','l','o',' ','w','o','r','l','d'] ['w','o','r','l','d'] =
      applyMarks (splitWs (strLower ['w','o','r','l','d']))
        (windowSnippet ['h','e','l','l','o',' ','w','o','r','l','d'] 6) := by
  have h := (generateHighlight_spec ['h','e','l','l','o',' ','w','o','r','l','d']
    ['w','o','r','l','d']).1 6 (by decide)
  exact ⟨h.2.1, h.2.2⟩

set_option maxRecDepth 100000 in
/-- C6 counterexample -- at content `"aaaa...a"` (80 characters) and query
`"a"`, a query term does occur, yet the returned highlight is 400 characters
long: the marking pass rewrites every occurrence of `a` to `**A**`, so the
highlight exceeds the documented maximum window length of 100 + 200 characters
plus two 3-character ellipsis markers (306). -/
theorem generateHighlight_exceeds_window :
    (generateHighlight (List.replicate 80 'a') ['a']).length = 400 ∧
    306 < (generateHighlight (List.replicate 80 'a') ['a']).length := by
  constructor <;> decide

/-- Membership in an index-annotated map comes from membership in the list. -/
theorem mem_mapWithIndex {α β : Type} {f : Nat → α → β} {i : Nat} {l : List α}
    {y : β} (h : y ∈ mapWithIndex f i l) : ∃ j a, a ∈ l ∧ y = f j a := by
  induction l generalizing i with
  | nil => simp [mapWithIndex] at h
  | cons a as ih =>
    simp only [mapWithIndex, List.mem_cons] at h
    rcases h with rfl | h
    · exact ⟨i, a, by simp, rfl⟩
    · obtain ⟨j, b, hb, rfl⟩ := ih h
      exact ⟨j, b, by simp [hb], rfl⟩

/-- Index annotation does not change the length. -/
theorem length_mapWithIndex {α β : Type} (f : Nat → α → β) (i : Nat)
    (l : List α) : (mapWithIndex f i l).length = l.length := by
  induction l generalizing i with
  | nil => rfl
  | cons a as ih => simp [mapWithIndex, ih]

/-- Inserting adds exactly the new element. -/
theorem mem_insertDesc {r y : SearchResult} {l : List SearchResult} :
    y ∈ insertDesc r l ↔ y = r ∨ y ∈ l := by
  induction l with
  | nil => simp [insertDesc]
  | cons x xs ih =>
    simp only [insertDesc]
    by_cases hc : x.score < r.score
    · simp only [hc, ite_true, List.mem_cons]
    · simp only [hc, ite_false, List.mem_cons, ih]
      tauto

/-- Insertion permutes a cons. -/
theorem insertDesc_perm (r : SearchResult) (l : List SearchResult) :
    (insertDesc r l).Perm (r :: l) := by
  induction l with
  | nil => simp [insertDesc]
  | cons x xs ih =>
    simp only [insertDesc]
    by_cases hc : x.score < r.score
    · simp [hc]
    · simp only [hc, ite_false]
      exact (ih.cons x).trans (List.Perm.swap r x xs)

/-- Insertion keeps the list sorted non-increasing on scores. -/
theorem pairwise_insertDesc {r : SearchResult} {l : List SearchResult}
    (h : l.Pairwise (fun a b => b.score ≤ a.score)) :
    (insertDesc r l).Pairwise (fun a b => b.score ≤ a.score) := by
  induction l with
  | nil => simp [insertDesc]
  | cons x xs ih =>
    rcases List.pairwise_cons.mp h with ⟨hx, hxs⟩
    simp only [insertDesc]
    by_cases hc : x.score < r.score
    · simp only [hc, ite_true]
      refine List.Pairwise.cons ?_ h
      intro y hy
      rcases List.mem_cons.mp hy with rfl | hy
      · exact le_of_lt hc
      · exact le_trans (hx y hy) (le_of_lt hc)
    · simp only [hc, ite_false]
      refine List.Pairwise.cons ?_ (ih hxs)
      intro y hy
      rcases mem_insertDesc.mp hy with rfl | hy
      · exact le_of_not_lt hc
      · exact hx y hy

/-- The sort is a permutation of its input. -/
theorem sortByScoreDesc_perm (l : List SearchResult) :
    (sortByScoreDesc l).Perm l := by
  suffices h : ∀ acc : List SearchResult,
      (List.foldl (fun acc r => insertDesc r acc) acc l).Perm (acc ++ l) by
    simpa [sortByScoreDesc] using h []
  induction l with
  | nil => intro acc; simp
  | cons a as ih =>
    intro acc
    simp only [List.foldl_cons]
    refine (ih (insertDesc a acc)).trans ?_
    refine (List.Perm.append_right as (insertDesc_perm a acc)).trans ?_
    exact List.perm_middle.symm

/-- The sort output is non-increasing on scores. -/
theorem sortByScoreDesc_sorted (l : List SearchResult) :
    (sortByScoreDesc l).Pairwise (fun a b => b.score ≤ a.score) := by
  suffices h : ∀ acc : List SearchResult,
      acc.Pairwise (fun a b => b.score ≤ a.score) →
      (List.foldl (fun acc r => insertDesc r acc) acc l).Pairwise
        (fun a b => b.score ≤ a.score) by
    exact h [] (by simp)
  induction l with
  | nil => intro acc hacc; simpa using hacc
  | cons a as ih =>
    intro acc hacc
    simp only [List.foldl_cons]
    exact ih _ (pairwise_insertDesc hacc)

/-- Deduplication only drops elements. -/
theorem mem_dedupById {l : List SearchResult} {seen : List String}
    {y : SearchResult} (h : y ∈ dedupById l seen) : y ∈ l := by
  induction l generalizing seen with
  | nil => simp [dedupById] at h
  | cons r rs ih =>
    simp only [dedupById] at h
    by_cases hc : r.item.id ∈ seen
    · simp only [hc, ite_true] at h
      exact List.mem_cons_of_mem r (ih h)
    · simp only [hc, ite_false, List.mem_cons] at h
      rcases h with rfl | h
      · simp
      · exact List.mem_cons_of_mem r (ih h)

/-- For an id not yet marked seen, deduplication keeps the first matching
result of the input list. -/
theorem dedupById_find? (l : List SearchResult) (seen : List String)
    (i : String) (hi : i ∉ seen) :
    (dedupById l seen).find? (fun r => r.item.id == i) =
      l.find? (fun r => r.item.id == i) := by
  induction l generalizing seen with
  | nil => rfl
  | cons r rs ih =>
    simp only [dedupById]
    by_cases hc : r.item.id ∈ seen
    · simp only [hc, ite_true]
      have hne : (r.item.id == i) = false := by
        simp only [beq_eq_false_iff_ne]
        intro he
        exact hi (he ▸ hc)
      simp only [List.find?_cons, hne]
      exact ih seen hi
    · simp only [hc, ite_false]
      by_cases he : r.item.id = i
      · have hp : (r.item.id == i) = true := by simp [he]
        simp only [List.find?_cons, hp]
      · have hne : (r.item.id == i) = false := by simp [he]
        simp only [List.find?_cons, hne]
        apply ih
        intro hmem
        rcases List.mem_cons.mp hmem with h' | h'
        · exact he h'.symm
        · exact hi h'

/-- Deduplication yields pairwise distinct ids, none of them already seen. -/
theorem dedupById_invariant (l : List SearchResult) (seen : List String) :
    (∀ r ∈ dedupById l seen, r.item.id ∉ seen) ∧
    (dedupById l seen).Pairwise (fun a b => a.item.id ≠ b.item.id) := by
  induction l generalizing seen with
  | nil => simp [dedupById]
  | cons r rs ih =>
    simp only [dedupById]
    by_cases hc : r.item.id ∈ seen
    · simpa [hc] using ih seen
    · simp only [hc, ite_false]
      have h1 := (ih (r.item.id :: seen)).1
      have h2 := (ih (r.item.id :: seen)).2
      constructor
      · intro y hy
        rcases List.mem_cons.mp hy with rfl | hy
        · exact hc
        · intro hmem
          exact h1 y hy (List.mem_cons_of_mem _ hmem)
      · refine List.Pairwise.cons ?_ h2
        intro y hy hid
        exact h1 y hy (hid ▸ List.mem_cons_self _ _)

/-- Keeping only the convertible elements does not change a `filterMap`. -/
theorem filterMap_filter_isSome {α β : Type} (f : α → Option β) (l : List α) :
    (l.filter (fun a => (f a).isSome)).filterMap f = l.filterMap f := by
  induction l with
  | nil => rfl
  | cons a as ih =>
    cases hf : f a with
    | none => simp [List.filter_cons, List.filterMap_cons, hf, ih]
    | some b => simp [List.filter_cons, List.filterMap_cons, hf, ih]

/-- Every semantic sub-result is built by `semRowResult` from a reply row. -/
theorem mem_semanticSearch {eng : SearchEngine} {query : List Char} {n : Nat}
    {ct : Option (List ContentType)} {src tags : Option (List String)}
    {clock : Nat → Int} {r : SearchResult}
    (h : r ∈ semanticSearch eng query n ct src tags clock) :
    ∃ rows, eng.semIndex query n (optNonEmpty ContentType.value ct)
        (optNonEmpty (fun s => s) src) = .ok rows ∧
      ∃ j row, row ∈ rows ∧ r = semRowResult query (clock j) row := by
  unfold semanticSearch at h
  cases he : eng.semIndex query n (optNonEmpty ContentType.value ct)
      (optNonEmpty (fun s => s) src) with
  | error e => rw [he] at h; simp at h
  | ok rows =>
    rw [he] at h
    obtain ⟨j, a, ha, hr⟩ := mem_mapWithIndex h
    exact ⟨rows, rfl, j, a, ha, hr⟩

/-- Every full-text sub-result is built by `ftsRowResult` from a reply row. -/
theorem mem_fulltextSearch {eng : SearchEngine} {query : List Char} {n : Nat}
    {ct : Option (List ContentType)} {src tags : Option (List String)}
    {clock : Nat → Int} {r : SearchResult}
    (h : r ∈ fulltextSearch eng query n ct src tags clock) :
    ∃ rows, eng.ftsIndex query n (optNonEmpty ContentType.value ct)
        (optNonEmpty (fun s => s) src) = .ok rows ∧
      ∃ j row, row ∈ rows ∧ r = ftsRowResult query (clock j) row := by
  unfold fulltextSearch at h
  cases he : eng.ftsIndex query n (optNonEmpty ContentType.value ct)
      (optNonEmpty (fun s => s) src) with
  | error e => rw [he] at h; simp at h
  | ok rows =>
    rw [he] at h
    obtain ⟨j, a, ha, hr⟩ := mem_mapWithIndex h
    exact ⟨rows, rfl, j, a, ha, hr⟩

/-- Every result of `search` comes from one of the two sub-searches. -/
theorem mem_search {eng : SearchEngine} {query : List Char} {limit : Nat}
    {ct : Option (List ContentType)} {src tags : Option (List String)}
    {clock : Nat → Int} {r : SearchResult}
    (h : r ∈ search eng query limit ct src tags clock) :
    r ∈ semanticSearch eng query (limit * 2) ct src tags clock ∨
    r ∈ fulltextSearch eng query (limit * 2) ct src tags
      (fun i => clock
        ((semanticSearch eng query (limit * 2) ct src tags clock).length + i)) := by
  simp only [search] at h
  have h1 := List.take_subset _ _ h
  have h2 := (sortByScoreDesc_perm _).mem_iff.mp h1
  exact List.mem_append.mp (mem_dedupById h2)

/-- C10 -- Every `KnowledgeItem` satisfies, immediately after construction, that
`created_at`, `updated_at` and `tags` are filled in: `created_at` defaults to the
construction time, `updated_at` defaults to `created_at` (so the two are equal
when neither was supplied), and `tags` defaults to the empty list; supplied
values are kept unchanged. -/
theorem postInit_defaults (raw : KnowledgeItemInit) (now : Int) :
    (raw.created_at = none → (postInit raw now).created_at = now) ∧
    (∀ t, raw.created_at = some t → (postInit raw now).created_at = t) ∧
    (raw.updated_at = none →
      (postInit raw now).updated_at = (postInit raw now).created_at) ∧
    (∀ t, raw.updated_at = some t → (postInit raw now).updated_at = t) ∧
    (raw.tags = none → (postInit raw now).tags = []) ∧
    (∀ ts, raw.tags = some ts → (postInit raw now).tags = ts) := by
  refine ⟨?_, ?_, ?_, ?_, ?_, ?_⟩ <;>
    simp only [postInit] <;> intro h <;> try intro h'
  · simp [h]
  · simp [h']
  · simp [h]
  · simp [h']
  · simp [h]
  · simp [h']

/-- Witness for C10 at a concrete item with all three fields left unset. -/
theorem postInit_defaults_witness :
    (postInit rawRecord 5).created_at = 5 ∧
    (postInit rawRecord 5).updated_at = (postInit rawRecord 5).created_at ∧
    (postInit rawRecord 5).tags = [] := by
  refine ⟨?_, ?_, ?_⟩
  · exact (postInit_defaults rawRecord 5).1 rfl
  · exact (postInit_defaults rawRecord 5).2.2.1 rfl
  · exact (postInit_defaults rawRecord 5).2.2.2.2.1 rfl

/-- C3 (amended) -- Every result list returned by `search` is sorted
non-increasing by fused score; equal-score results keep the stable merge
order (all semantic results before all full-text results, each in store
order), with no tie-break on `updated_at`. -/
theorem search_sorted_by_score (eng : SearchEngine) (query : List Char)
    (limit : Nat) (content_types : Option (List ContentType))
    (sources tags : Option (List String)) (clock : Nat → Int) :
    (search eng query limit content_types sources tags clock).Pairwise
      (fun a b => b.score ≤ a.score) := by
  simp only [search]
  exact List.Pairwise.sublist (List.take_sublist _ _) (sortByScoreDesc_sorted _)

/-- C3 counterexample -- two results with the equal fused score `1/2`: the
first returned result has `updated_at = 0`, strictly older than the second's
`updated_at = 1`, so equal scores are not ordered most-recent first. -/
theorem search_equal_scores_keep_merge_order :
    ((search engTie ['t'] 10 none none none (fun i => (i : Int))).map
      (fun r => (r.item.id, r.score, r.item.updated_at)) =
      [("a", 1/2, 0), ("b", 1/2, 1)]) ∧
    (0 : Int) < 1 := by
  constructor
  · with_unfolding_all decide
  · decide

/-- C8 (amended) -- The `tags` argument of `search` is accepted but ignored:
it is forwarded to the two sub-searches, neither of which reads it, and no
post-filter on tags exists, so the result is independent of it. -/
theorem search_tags_parameter_unused (eng : SearchEngine) (query : List Char)
    (limit : Nat) (content_types : Option (List ContentType))
    (sources tags₁ tags₂ : Option (List String)) (clock : Nat → Int) :
    search eng query limit content_types sources tags₁ clock =
      search eng query limit content_types sources tags₂ clock := rfl

/-- C8 counterexample -- a search requesting tag `"y"` returns an item whose
only tag is `"x"`: the returned item carries none of the requested tags. -/
theorem search_returns_items_without_requested_tags :
    ((search engSemOnly ['a'] 10 none none (some ["y"]) (fun i => (i : Int))).map
      (fun r => r.item.tags) = [["x"]]) ∧
    (∀ t, t ∈ (["x"] : List String) → t ∉ (["y"] : List String)) := by
  constructor
  · with_unfolding_all decide
  · decide

/-- C2 (amended) -- The merged list contains each `item.id` at most once (and
so does the final result list), but a duplicated id keeps the FIRST occurrence
in semantic-then-fulltext order — the semantic score and a context recording
only the semantic path — rather than the maximum of the two scores with both
paths; an id appearing in only one result set keeps that set's score, being
its own first occurrence. -/
theorem search_merge_keeps_first_occurrence (eng : SearchEngine)
    (query : List Char) (limit : Nat) (content_types : Option (List ContentType))
    (sources tags : Option (List String)) (clock : Nat → Int)
    (l : List SearchResult) (i : String) :
    (search eng query limit content_types sources tags clock).Pairwise
      (fun a b => a.item.id ≠ b.item.id) ∧
    (dedupById l []).find? (fun r => r.item.id == i) =
      l.find? (fun r => r.item.id == i) := by
  constructor
  · simp only [search]
    refine List.Pairwise.sublist (List.take_sublist _ _) ?_
    exact ((sortByScoreDesc_perm _).pairwise_iff
      (fun h => Ne.symm h)).mpr (dedupById_invariant _ []).2
  · exact dedupById_find? l [] i (by simp)

/-- C2 counterexample -- item id `"x"` is reported by both stores, with
normalized semantic score `1/5` and lexical score `1/2`; the merged result
keeps the semantic score `1/5` and a context naming only the semantic path,
although the maximum of the two normalized sub-scores is `1/2`. -/
theorem search_duplicate_id_keeps_semantic_not_max :
    ((search engDup ['a'] 10 none none none (fun i => (i : Int))).map
      (fun r => (r.item.id, r.score, r.search_type)) = [("x", 1/5, "semantic")]) ∧
    max (1/5 : ℚ) (1/2) = 1/2 ∧ (1/5 : ℚ) ≠ 1/2 := by
  refine ⟨?_, ?_, ?_⟩ <;> with_unfolding_all decide

/-- C1 (amended) -- Every fused score returned by `search` is nonnegative,
and every result contributed by the semantic path has score at most 1
whenever the vector store reports nonnegative distances (the distance metric
is nonnegative); but the lexical sub-score `max(0, -rank/10)` is bounded only
from below, so fused scores are NOT confined to `[0,1]`. -/
theorem search_scores_nonneg (eng : SearchEngine) (query : List Char)
    (limit : Nat) (content_types : Option (List ContentType))
    (sources tags : Option (List String)) (clock : Nat → Int)
    (hd : ∀ q n c s rows, eng.semIndex q n c s = .ok rows →
      ∀ row ∈ rows, 0 ≤ row.distance) :
    ∀ r ∈ search eng query limit content_types sources tags clock,
      0 ≤ r.score ∧ (r.search_type = "semantic" → r.score ≤ 1) := by
  intro r hr
  rcases mem_search hr with h | h
  · obtain ⟨rows, hok, j, row, hrow, hr'⟩ := mem_semanticSearch h
    subst hr'
    constructor
    · exact le_max_left 0 _
    · intro _
      have h0 : 0 ≤ row.distance := hd _ _ _ _ rows hok row hrow
      have h1 : (1 : ℚ) - row.distance ≤ 1 := by linarith
      exact max_le (by norm_num) h1
  · obtain ⟨rows, hok, j, row, hrow, hr'⟩ := mem_fulltextSearch h
    subst hr'
    constructor
    · exact le_max_left 0 _
    · intro hst
      simp [ftsRowResult] at hst

/-- Witness for C1 at the concrete engine `engSemOnly` (distance `4/5`): the
returned semantic result has score `1/5 ∈ [0,1]`. -/
theorem search_scores_nonneg_witness :
    0 ≤ (semRowResult ['a'] 0 rowA).score ∧
    ((semRowResult ['a'] 0 rowA).search_type = "semantic" →
      (semRowResult ['a'] 0 rowA).score ≤ 1) :=
  search_scores_nonneg engSemOnly ['a'] 10 none none none (fun i => (i : Int))
    (fun q n c s rows hok row hrow => by
      simp only [engSemOnly] at hok
      cases hok
      rcases List.mem_singleton.mp hrow with rfl
      norm_num [rowA])
    (semRowResult ['a'] 0 rowA) (by with_unfolding_all decide)

/-- C1 counterexample -- a lexical row of raw FTS rank `-20` fuses to score
`max(0, -(-20)/10) = 2`, which `search` returns unchanged: the lexical
sub-score is not rescaled into `[0,1]`, and the fused score lies outside
`[0,1]`. -/
theorem search_score_exceeds_one :
    ((search engFtsHot ['q'] 10 none none none (fun i => (i : Int))).map
      SearchResult.score = [2]) ∧ ¬ ((2 : ℚ) ≤ 1) := by
  constructor
  · with_unfolding_all decide
  · norm_num

/-- Deduplicating a nonempty list (with nothing seen yet) is nonempty. -/
theorem dedupById_ne_nil {l : List SearchResult} (h : l ≠ []) :
    dedupById l [] ≠ [] := by
  cases l with
  | nil => exact absurd rfl h
  | cons r rs => simp [dedupById]

/-- A nonempty semantic result list forces a nonempty search result (for a
nonzero limit): no guard empties the pipeline. -/
theorem search_ne_nil_of_sem {eng : SearchEngine} {query : List Char}
    {limit : Nat} {ct : Option (List ContentType)}
    {src tags : Option (List String)} {clock : Nat → Int}
    (hsem : semanticSearch eng query (limit * 2) ct src tags clock ≠ [])
    (hlim : limit ≠ 0) :
    search eng query limit ct src tags clock ≠ [] := by
  intro hcontra
  have hlen := congrArg List.length hcontra
  simp only [search, List.length_take, List.length_nil] at hlen
  rw [(sortByScoreDesc_perm _).length_eq] at hlen
  have happ : semanticSearch eng query (limit * 2) ct src tags clock ++
      fulltextSearch eng query (limit * 2) ct src tags
        (fun i => clock
          ((semanticSearch eng query (limit * 2) ct src tags clock).length + i)) ≠
      [] := by
    intro h0
    exact hsem (List.append_eq_nil.mp h0).1
  have hd := dedupById_ne_nil happ
  have hdl : (dedupById (semanticSearch eng query (limit * 2) ct src tags clock ++
      fulltextSearch eng query (limit * 2) ct src tags
        (fun i => clock
          ((semanticSearch eng query (limit * 2) ct src tags clock).length + i)))
      []).length ≠ 0 := fun h0 => hd (List.length_eq_zero.mp h0)
  omega

/-- C4 (amended) -- an empty query is NOT special-cased: it is passed to both
indexes like any other query, and whatever rows the vector store returns for
it are surfaced, so the result need not be empty (the lexical FTS query on the
empty string raises an FTS parse error, which is caught and contributes nothing).
-/
theorem search_empty_query_still_queries (eng : SearchEngine) (limit : Nat)
    (content_types : Option (List ContentType))
    (sources tags : Option (List String)) (clock : Nat → Int)
    (rows : List SemRow)
    (hok : eng.semIndex [] (limit * 2) (optNonEmpty ContentType.value content_types)
      (optNonEmpty (fun s => s) sources) = .ok rows)
    (hne : rows ≠ []) (hlim : limit ≠ 0) :
    search eng [] limit content_types sources tags clock ≠ [] := by
  refine search_ne_nil_of_sem ?_ hlim
  have heq : semanticSearch eng [] (limit * 2) content_types sources tags clock =
      mapWithIndex (fun i r => semRowResult [] (clock i) r) 0 rows := by
    unfold semanticSearch
    rw [hok]
  rw [heq]
  intro h0
  have hl := congrArg List.length h0
  rw [length_mapWithIndex] at hl
  simp only [List.length_nil] at hl
  exact hne (List.length_eq_zero.mp hl)

/-- Witness for C4: the concrete engine `engSemOnly` answers the empty query
with one row, and `search` on the empty query returns a nonempty list. -/
theorem search_empty_query_still_queries_witness :
    search engSemOnly [] 5 none none none (fun i => (i : Int)) ≠ [] :=
  search_empty_query_still_queries engSemOnly 5 none none none
    (fun i => (i : Int)) [rowA] rfl (by simp) (by decide)

/-- C4 counterexample -- `search("", limit=5)` against a store holding item
`"x"` returns `["x"]`, not the empty list: the vector index is still queried
(its reply determines the output) and its rows are returned. -/
theorem search_empty_query_returns_items :
    (search engSemOnly [] 5 none none none (fun i => (i : Int))).map
      (fun r => r.item.id) = ["x"] := by
  with_unfolding_all decide

/-- C5 (amended) -- ingesting the same id twice is NOT idempotent: the second
ingestion replaces the metadata row — `created_at` and `updated_at` are both
taken from the second ingestion, so `created_at` is not preserved — and
appends a SECOND row with the same id to the FTS table (FTS5 has no UNIQUE
constraint on `id`, so `INSERT OR REPLACE` inserts). -/
theorem addItems_reingest (item1 item2 : KnowledgeItem)
    (h : item1.id = item2.id) :
    addItems ⟨[], []⟩ [item1] = ⟨[ftsRowOf item1], [metaRowOf item1]⟩ ∧
    addItems (addItems ⟨[], []⟩ [item1]) [item2] =
      ⟨[ftsRowOf item1, ftsRowOf item2], [metaRowOf item2]⟩ := by
  constructor
  · simp [addItems, upsertMeta]
  · simp [addItems, upsertMeta, metaRowOf, h]

/-- Witness for C5 at the concrete raw record ingested at times 0 and 1. -/
theorem addItems_reingest_witness :
    addItems (addItems ⟨[], []⟩ [postInit rawRecord 0]) [postInit rawRecord 1] =
      ⟨[ftsRowOf (postInit rawRecord 0), ftsRowOf (postInit rawRecord 1)],
       [metaRowOf (postInit rawRecord 1)]⟩ :=
  (addItems_reingest (postInit rawRecord 0) (postInit rawRecord 1) rfl).2

/-- C5 counterexample -- the same raw record ingested at time 0 and again at
time 1: the lexical FTS table then holds TWO rows with id `"a1"` (not a single
stored item), and the metadata row's `created_at` is 1, not the unchanged
first-ingestion value 0. -/
theorem addItems_reingest_not_idempotent :
    ((addItems (addItems ⟨[], []⟩ [postInit rawRecord 0])
        [postInit rawRecord 1]).fts.filter (fun r => r.id == "a1")).length = 2 ∧
    ((addItems (addItems ⟨[], []⟩ [postInit rawRecord 0])
        [postInit rawRecord 1]).meta.map
      (fun r => (r.id, r.created_at, r.updated_at))) = [("a1", 1, 1)] ∧
    (postInit rawRecord 0).created_at = 0 := by
  refine ⟨?_, ?_, ?_⟩ <;> decide

/-- C7 (amended) -- when both index queries fail, each sub-search catches its
own exception and returns an empty list: `search` returns `[]` — the same
value as for no matches — and the API layer still reports `"success"` with
zero results; no error is surfaced to the caller. -/
theorem search_both_fail_returns_empty (eng : SearchEngine) (query : List Char)
    (limit : Nat) (content_types : Option (List ContentType))
    (sources tags : Option (List String)) (cts : Option (List String))
    (clock : Nat → Int)
    (h1 : ∀ q n c s, ∃ e, eng.semIndex q n c s = .error e)
    (h2 : ∀ q n c s, ∃ e, eng.ftsIndex q n c s = .error e) :
    search eng query limit content_types sources tags clock = [] ∧
    (searchKnowledgeBase eng query limit cts sources tags clock).status =
      "success" ∧
    (searchKnowledgeBase eng query limit cts sources tags clock).results = [] := by
  have hsearch : ∀ (ct' : Option (List ContentType)) (cl : Nat → Int),
      search eng query limit ct' sources tags cl = [] := by
    intro ct' cl
    obtain ⟨e1, he1⟩ := h1 query (limit * 2) (optNonEmpty ContentType.value ct')
      (optNonEmpty (fun s => s) sources)
    obtain ⟨e2, he2⟩ := h2 query (limit * 2) (optNonEmpty ContentType.value ct')
      (optNonEmpty (fun s => s) sources)
    simp [search, semanticSearch, fulltextSearch, he1, he2, dedupById,
      sortByScoreDesc]
  refine ⟨hsearch content_types clock, rfl, ?_⟩
  simp only [searchKnowledgeBase, hsearch]

/-- Witness for C7 at the concrete engine whose both stores raise. -/
theorem search_both_fail_returns_empty_witness :
    search engDown ['q'] 10 none none none (fun i => (i : Int)) = [] ∧
    (searchKnowledgeBase engDown ['q'] 10 none none none
      (fun i => (i : Int))).status = "success" ∧
    (searchKnowledgeBase engDown ['q'] 10 none none none
      (fun i => (i : Int))).results = [] :=
  search_both_fail_returns_empty engDown ['q'] 10 none none none none
    (fun i => (i : Int)) (fun _ _ _ _ => ⟨"down", rfl⟩)
    (fun _ _ _ _ => ⟨"down", rfl⟩)

/-- C7 counterexample -- with both stores unreachable, `search` returns the
empty list — the very same value a healthy engine with no matching rows
returns — instead of surfacing an explicit error; the two outcomes are
indistinguishable to the caller. -/
theorem search_unavailable_equals_no_matches :
    search engDown ['q'] 10 none none none (fun i => (i : Int)) = [] ∧
    search engEmpty ['q'] 10 none none none (fun i => (i : Int)) = [] := by
  constructor <;> decide

/-- C9 (amended) -- an invalid content-type string is NOT rejected: it is
logged and skipped, and the query proceeds over the remaining valid types —
with no content-type restriction at all when no valid type remains; the reply
status is always `"success"`, never a validation error. -/
theorem searchKnowledgeBase_skips_invalid (eng : SearchEngine)
    (query : List Char) (limit : Nat) (cts : Option (List String))
    (sources tags : Option (List String)) (clock : Nat → Int) :
    (searchKnowledgeBase eng query limit cts sources tags clock).status =
      "success" ∧
    searchKnowledgeBase eng query limit
        (some ((cts.getD []).filter (fun s => (contentTypeOfString s).isSome)))
        sources tags clock =
      searchKnowledgeBase eng query limit cts sources tags clock := by
  refine ⟨rfl, ?_⟩
  simp only [searchKnowledgeBase, Option.getD_some, filterMap_filter_isSome]

/-- C9 counterexample -- a query filtered by the invalid content type
`"bogus"` is not rejected: the reply has status `"success"` and carries
results, with the invalid filter silently dropped (no content-type
restriction was applied at all). -/
theorem searchKnowledgeBase_invalid_not_rejected :
    (searchKnowledgeBase engSemOnly ['a'] 10 (some ["bogus"]) none none
      (fun i => (i : Int))).status = "success" ∧
    (searchKnowledgeBase engSemOnly ['a'] 10 (some ["bogus"]) none none
      (fun i => (i : Int))).results.map (fun r => r.item.id) = ["x"] := by
  constructor
  · rfl
  · with_unfolding_all decide

end Nyra
